import Mathlib

/-!
Shallow embedding of `src/crawler.py`, a bounded single-site news crawler.

External collaborators (the HTTP transport, the HTML parser and the
filesystem) are modelled as oracles packaged in an `Env` value:
`net` maps a URL to the transport outcome of one GET, `hrefs` maps an HTML
document to the list of values of `href` attributes of its anchor tags
(what `soup.find_all('a', href=True)` yields), and `text` maps an HTML
document to the visible text after the script/style/meta/link elements are
stripped (what `soup.get_text(strip=True)` yields after `decompose`).
Filesystem writes are modelled by accumulating the written files in the
crawler state.  Everything else is translated directly from the source.
-/

/-! ### Character-list utilities (models of the Python string operations) -/

/-- Tests whether the first list is an initial segment of the second. -/
def leadMatch : List Char → List Char → Bool
  | [], _ => true
  | _ :: _, [] => false
  | a :: as, b :: bs => a == b && leadMatch as bs

/-- Tests whether `needle` occurs as a contiguous run inside the second list;
models the Python `in` operator on strings. -/
def containsSub (needle : List Char) : List Char → Bool
  | [] => needle.isEmpty
  | b :: bs => leadMatch needle (b :: bs) || containsSub needle bs

/-- Models Python `s.startswith(pre)`. -/
def strStartsWith (pre s : String) : Bool := leadMatch pre.data s.data

/-- Models Python `s.endswith(suf)`. -/
def strEndsWith (suf s : String) : Bool := leadMatch suf.data.reverse s.data.reverse

/-- Models Python `s.lower()` (ASCII case folding, the range the paths use). -/
def strLower (s : String) : String := String.mk (s.data.map Char.toLower)

/-! ### URL model: `urllib.parse.urlparse` and `urljoin` restricted to the
grammar the crawler meets (absolute http/https URLs, protocol-relative,
root-relative and document-relative references, with optional query and
fragment). -/

structure Url where
  scheme : String
  netloc : String
  path : String
  query : String
deriving DecidableEq, Repr

/-- Splits a character list at the first occurrence of `sep`; the second
component is `none` when `sep` does not occur. -/
def splitFirst (sep : Char) : List Char → List Char × Option (List Char)
  | [] => ([], none)
  | c :: cs =>
    if c = sep then ([], some cs)
    else
      let r := splitFirst sep cs
      (c :: r.1, r.2)

/-- Detects a leading `scheme:` token: a maximal run of scheme characters
followed by a colon.  Returns the scheme and the remainder after the colon. -/
def schemeSplit : List Char → Option (List Char × List Char)
  | [] => none
  | c :: cs =>
    if c = ':' then some ([], cs)
    else if c.isAlphanum || c = '+' || c = '-' || c = '.' then
      match schemeSplit cs with
      | some (sch, rest) => some (c :: sch, rest)
      | none => none
    else none

/-- Splits the network-location part from what follows it (the first `/` or
`?` ends the netloc and is kept with the remainder). -/
def netlocSplit : List Char → List Char × List Char
  | [] => ([], [])
  | c :: cs =>
    if c = '/' || c = '?' then ([], c :: cs)
    else
      let r := netlocSplit cs
      (c :: r.1, r.2)

/-- Models `urllib.parse.urlparse` on the URL shapes the crawler meets:
the fragment is dropped, the scheme is lower-cased, `//` introduces the
netloc, `?` introduces the query. -/
def urlparse (s : String) : Url :=
  let l := (splitFirst '#' s.data).1
  match schemeSplit l with
  | some (sch, rest) =>
    match rest with
    | '/' :: '/' :: r2 =>
      let nl := netlocSplit r2
      let pq := splitFirst '?' nl.2
      { scheme := strLower (String.mk sch), netloc := String.mk nl.1,
        path := String.mk pq.1, query := String.mk (pq.2.getD []) }
    | _ =>
      let pq := splitFirst '?' rest
      { scheme := strLower (String.mk sch), netloc := "",
        path := String.mk pq.1, query := String.mk (pq.2.getD []) }
  | none =>
    let pq := splitFirst '?' l
    { scheme := "", netloc := "",
      path := String.mk pq.1, query := String.mk (pq.2.getD []) }

/-- Directory part of a path, with its trailing slash; the merge step of
relative resolution (RFC 3986 section 5.3, as `urljoin` performs it). -/
def dirSlash (p : String) : String :=
  let r := p.data.reverse.dropWhile (fun c => c ≠ '/')
  if r.isEmpty then "/" else String.mk r.reverse

/-- Models `urllib.parse.urljoin(base, url)` on the reference shapes the
crawler meets. -/
def urljoin (base url : String) : String :=
  if url = "" then base
  else
    match schemeSplit url.data with
    | some _ => url
    | none =>
      let b := urlparse base
      if strStartsWith "//" url then b.scheme ++ ":" ++ url
      else if strStartsWith "/" url then b.scheme ++ "://" ++ b.netloc ++ url
      else if strStartsWith "?" url then b.scheme ++ "://" ++ b.netloc ++ b.path ++ url
      else b.scheme ++ "://" ++ b.netloc ++ dirSlash b.path ++ url

/-! ### Module constants of `crawler.py` -/

def BASE_URL : String := "https://media.kpfu.ru"

def NEWS_URL : String := "https://media.kpfu.ru/news"

def MIN_PAGES : Nat := 100

def MAX_PAGES_TO_TRY : Nat := 30

/-- Extension blocklist of `extract_article_links`. -/
def blockedExts : List String :=
  [".js", ".css", ".png", ".jpg", ".jpeg", ".gif", ".svg", ".ico", ".pdf", ".doc", ".docx"]

/-! ### Transport and environment -/

/-- Outcome of one `requests.get` call: a response with a status code and a
body, or a `requests.RequestException` (connection error or timeout). -/
inductive HttpOutcome where
  | response (status : Nat) (body : String)
  | networkError
  | timeout
deriving DecidableEq

/-- Status codes for which `Response.raise_for_status` raises `HTTPError`
(client errors 4xx and server errors 5xx). -/
def hasHttpError (status : Nat) : Bool := 400 ≤ status && status < 600

/-- Embedding of `fetch_page` (crawler.py lines 79 to 86): any
`RequestException`, including the `HTTPError` from `raise_for_status`,
is caught and reported as `none`; otherwise the body text is returned. -/
def fetch_page : HttpOutcome → Option String
  | HttpOutcome.networkError => none
  | HttpOutcome.timeout => none
  | HttpOutcome.response status body =>
      if hasHttpError status then none else some body

/-- Oracles for the external collaborators of one crawl run. -/
structure Env where
  net : String → HttpOutcome
  hrefs : String → List String
  text : String → String

/-- One fetch as the crawl loop sees it: `fetch_page` applied to the
transport outcome for the URL. -/
def fetchOf (env : Env) (url : String) : Option String := fetch_page (env.net url)

/-! ### `is_text_page` (crawler.py lines 22 to 42) -/

/-- Character class of the regular expression `[Ѐ-ӿ]`. -/
def isCyrillicChar (c : Char) : Bool := 0x400 ≤ c.toNat && c.toNat ≤ 0x4FF

/-- Character class of the regular expression `[a-zA-Z]`. -/
def isLatinChar (c : Char) : Bool := ('a' ≤ c && c ≤ 'z') || ('A' ≤ c && c ≤ 'Z')

/-- Whether the regular expression `[Ѐ-ӿ]` finds a match. -/
def hasCyrillic (s : String) : Bool := s.data.any isCyrillicChar

/-- Whether three consecutive Latin letters occur in a character list. -/
def latinRun3 : List Char → Bool
  | a :: b :: c :: rest => (isLatinChar a && isLatinChar b && isLatinChar c) || latinRun3 (b :: c :: rest)
  | _ => false

/-- Whether the regular expression `[a-zA-Z]{3,}` finds a match. -/
def hasLatinRun3 (s : String) : Bool := latinRun3 s.data

/-- Embedding of `is_text_page`: `None` and the empty string fail the
`if not html_content` guard; otherwise the stripped visible text (given by
the parser oracle) must have at least 100 characters and show a Cyrillic
character or, failing that, a run of three Latin letters. -/
def is_text_page (env : Env) : Option String → Bool
  | none => false
  | some html =>
    if html = "" then false
    else
      let text := env.text html
      if text.length < 100 then false
      else if hasCyrillic text then true
      else if hasLatinRun3 text then true
      else false

/-! ### `extract_article_links` (crawler.py lines 45 to 76) -/

/-- Filter body of the `for a_tag in soup.find_all('a', href=True)` loop:
returns the absolute URL added to the result set, or `none` when some
check rejects the reference. -/
def keepHref (href : String) : Option String :=
  if strStartsWith "#" href || strStartsWith "javascript:" href then none
  else
    let full_url := urljoin BASE_URL href
    if (urlparse full_url).netloc ≠ (urlparse BASE_URL).netloc then none
    else
      let path := strLower (urlparse full_url).path
      if blockedExts.any (fun ext => strEndsWith ext path) then none
      else if containsSub "rss".data (strLower path).data then none
      else if path = "/news" ∨ path = "/news/" then none
      else if containsSub "/news".data path.data then some full_url
      else none

/-- Embedding of `extract_article_links`: the deduplicated set of accepted
absolute URLs, over the href values the parser oracle yields. -/
def extract_article_links (hrefs : List String) : Finset String :=
  (hrefs.filterMap keepHref).toFinset

/-! ### Pagination walk (crawler.py lines 109 to 139) -/

/-- Listing URL for paginated page `n`, the f-string on line 118. -/
def pageUrl (n : Nat) : String := NEWS_URL ++ "?page=" ++ toString n

/-- Embedding of the `for page_num in range(1, max_pages_to_try + 1)` loop:
`fuel` is the number of loop iterations still allowed, `pageNum` the next
page number, `acc` the accumulated `article_urls` set.  The first component
of the result is the list of page numbers actually fetched, the second the
final accumulated set.  A falsy body (`None` or the empty string) or an
empty extraction ends the walk after the current page. -/
def runPagination (env : Env) : Nat → Nat → Finset String → List Nat × Finset String
  | _, 0, acc => ([], acc)
  | pageNum, fuel + 1, acc =>
    match fetchOf env (pageUrl pageNum) with
    | none => ([pageNum], acc)
    | some html =>
      if html = "" then ([pageNum], acc)
      else
        let links := extract_article_links (env.hrefs html)
        if links = ∅ then ([pageNum], acc)
        else
          let r := runPagination env (pageNum + 1) fuel (acc ∪ links)
          (pageNum :: r.1, r.2)

/-- Links harvested from the unpaginated listing page (lines 110 to 114);
a falsy body contributes nothing. -/
def initLinks (env : Env) : Finset String :=
  match fetchOf env NEWS_URL with
  | none => ∅
  | some html => if html = "" then ∅ else extract_article_links (env.hrefs html)

/-- The full candidate set `article_urls` after the pagination walk. -/
def collectArticleUrls (env : Env) : Finset String :=
  (runPagination env 1 MAX_PAGES_TO_TRY (initLinks env)).2

/-- Page numbers whose listing URL the pagination walk fetches. -/
def fetchedPages (env : Env) : List Nat :=
  (runPagination env 1 MAX_PAGES_TO_TRY (initLinks env)).1

/-- Whether the walk would stop at page `n`: the fetch is falsy or the
extraction is empty.  This depends only on the oracle answers for page `n`. -/
def terminalAt (env : Env) (n : Nat) : Bool :=
  match fetchOf env (pageUrl n) with
  | none => true
  | some html =>
    html = "" || extract_article_links (env.hrefs html) = (∅ : Finset String)

/-! ### Frontier loop (crawler.py lines 141 to 182) -/

/-- Python `f"{n:04d}"`: decimal digits zero-padded on the left to width 4. -/
def pad4 (n : Nat) : String :=
  let s := toString n
  String.mk (List.replicate (4 - s.length) '0') ++ s

/-- Filename of the page with sequence number `n`, line 158. -/
def filenameOf (n : Nat) : String := "page_" ++ pad4 n ++ ".txt"

/-- State threaded through the `for url in article_urls` loop.  `saved`
mirrors `saved_pages` (sequence, URL, filename), `counter` mirrors
`page_counter`, `indexEntries` mirrors `index_entries`, `files` records the
`save_page` writes (filename and content) and `fetched` records every URL
passed to `fetch_page`, in order. -/
structure FrontierState where
  saved : List (Nat × String × String)
  counter : Nat
  indexEntries : List String
  files : List (String × String)
  fetched : List String
deriving DecidableEq

/-- State at entry of the frontier loop (lines 99 to 102 and 141). -/
def initFrontier : FrontierState :=
  { saved := [], counter := 0, indexEntries := [], files := [], fetched := [] }

/-- Embedding of the frontier loop: `urls` is the iteration order of the
`article_urls` set, `minPages` the `MIN_PAGES` target.  The break guard is
checked before each URL is consumed; a falsy body or a classifier rejection
skips the URL; an acceptance increments the counter, saves the file and
appends the index entry. -/
def runFrontier (env : Env) (minPages : Nat) : List String → FrontierState → FrontierState
  | [], st => st
  | url :: rest, st =>
    if minPages ≤ st.saved.length then st
    else
      match fetchOf env url with
      | none => runFrontier env minPages rest { st with fetched := st.fetched ++ [url] }
      | some html =>
        if html = "" then
          runFrontier env minPages rest { st with fetched := st.fetched ++ [url] }
        else if is_text_page env (some html) = false then
          runFrontier env minPages rest { st with fetched := st.fetched ++ [url] }
        else
          runFrontier env minPages rest
            { saved := st.saved ++ [(st.counter + 1, url, filenameOf (st.counter + 1))],
              counter := st.counter + 1,
              indexEntries := st.indexEntries ++ [toString (st.counter + 1) ++ "\t" ++ url],
              files := st.files ++ [(filenameOf (st.counter + 1), html)],
              fetched := st.fetched ++ [url] }

/-! ### Index file and whole run (crawler.py lines 168 to 182) -/

/-- First header line written to the index file, line 171. -/
def headerLine1 : String := "# File Number\tURL"

/-- Second header line written to the index file, line 172. -/
def headerLine2 : String := "#" ++ String.mk (List.replicate 60 '=')

/-- Lines of the index file: the two fixed header lines followed by one
line per accumulated index entry. -/
def indexFileLines (entries : List String) : List String :=
  headerLine1 :: headerLine2 :: entries

/-- Outcome of one `crawl()` call. -/
structure CrawlResult where
  articleUrls : Finset String
  finalState : FrontierState
  indexLines : List String
  returnValue : Nat

/-- Embedding of `crawl`: the pagination walk builds the candidate set,
the frontier loop consumes it in the iteration order `order` of the set,
the index file is written after the loop, and the number of saved pages is
returned. -/
def crawl (env : Env) (order : List String) : CrawlResult :=
  let st := runFrontier env MIN_PAGES order initFrontier
  { articleUrls := collectArticleUrls env,
    finalState := st,
    indexLines := indexFileLines st.indexEntries,
    returnValue := st.saved.length }

/-! ### Concrete environments and inputs used by the verification -/

/-- Environment whose parser returns the document itself as its visible
text; used to exercise the classifier on concrete strings. -/
def envId : Env :=
  { net := fun _ => HttpOutcome.networkError, hrefs := fun _ => [], text := fun s => s }

/-- A 102-character text of two-letter Latin tokens: no Cyrillic character
and no run of three consecutive Latin letters. -/
def sNoRun : String := String.join (List.replicate 34 "ab ")

/-- A 102-character text containing the three-letter Latin run `abc`. -/
def sWithRun : String := "abc" ++ String.join (List.replicate 33 " ab")

/-- One hundred copies of a Cyrillic capital letter. -/
def cyr100 : String := String.mk (List.replicate 100 (Char.ofNat 0x41F))

/-- Environment in which every fetch succeeds and every page classifies as
text (its stripped text is 100 Cyrillic characters). -/
def envAccept : Env :=
  { net := fun _ => HttpOutcome.response 200 "B", hrefs := fun _ => [], text := fun _ => cyr100 }

/-- A candidate set of five distinct URLs. -/
def urls5 : List String := ["u1", "u2", "u3", "u4", "u5"]

/-- Environment whose listing pages 1 and 2 yield one article link while
page 3 yields a page with no extractable links. -/
def envPg : Env :=
  { net := fun u => if u = pageUrl 3 then HttpOutcome.response 200 "E" else HttpOutcome.response 200 "L",
    hrefs := fun h => if h = "L" then ["/news/a"] else [],
    text := fun _ => "" }

/-- Environment whose unpaginated listing yields one article link and whose
every other fetch fails. -/
def envListing : Env :=
  { net := fun u => if u = NEWS_URL then HttpOutcome.response 200 "L" else HttpOutcome.networkError,
    hrefs := fun _ => ["/news/item1"],
    text := fun _ => "" }

/-! ### Predicates used by the verification statements -/

/-- Invariant of the frontier loop relating all accumulators: the counter
equals the number of saved pages, the recorded sequence numbers are exactly
1, 2, ..., counter in order, filenames are derived from the sequence
number, and index entries and file writes mirror the saved list. -/
def GoodState (st : FrontierState) : Prop :=
  st.counter = st.saved.length ∧
  st.saved.map (fun p => p.1) = List.range' 1 st.saved.length ∧
  (∀ p ∈ st.saved, p.2.2 = filenameOf p.1) ∧
  st.indexEntries = st.saved.map (fun p => toString p.1 ++ "\t" ++ p.2.1) ∧
  st.files.map Prod.fst = st.saved.map (fun p => p.2.2)

/-- Properties every URL accepted by `keepHref` enjoys, stated on the
lower-cased path exactly as the source computes it: the network location
matches the base, no blocklisted extension, no rss substring, not the bare
listing root, and the article-namespace segment is present. -/
def goodUrl (u : String) : Prop :=
  (urlparse u).netloc = (urlparse BASE_URL).netloc ∧
  (∀ ext ∈ blockedExts, strEndsWith ext (strLower (urlparse u).path) = false) ∧
  containsSub "rss".data (strLower (strLower (urlparse u).path)).data = false ∧
  strLower (urlparse u).path ≠ "/news" ∧
  strLower (urlparse u).path ≠ "/news/" ∧
  containsSub "/news".data (strLower (urlparse u).path).data = true

/-! ### Helper lemmas about the frontier loop -/

lemma goodState_init : GoodState initFrontier := by
  refine ⟨rfl, rfl, ?_, rfl, rfl⟩
  intro p hp
  simp [initFrontier] at hp

lemma goodState_accept (st : FrontierState) (url html : String) (h : GoodState st) :
    GoodState
      { saved := st.saved ++ [(st.counter + 1, url, filenameOf (st.counter + 1))],
        counter := st.counter + 1,
        indexEntries := st.indexEntries ++ [toString (st.counter + 1) ++ "\t" ++ url],
        files := st.files ++ [(filenameOf (st.counter + 1), html)],
        fetched := st.fetched ++ [url] } := by
  obtain ⟨hc, hseq, hfn, hidx, hfil⟩ := h
  have hrange : List.range' 1 st.saved.length ++ [1 + st.saved.length] =
      List.range' 1 (1 + st.saved.length) := by
    simpa using List.range'_append_1 1 st.saved.length 1
  refine ⟨?_, ?_, ?_, ?_, ?_⟩
  · simp [hc]
  · simp only [List.map_append, List.map_cons, List.map_nil, hseq, hc,
      List.length_append, List.length_cons, List.length_nil]
    rw [Nat.add_comm st.saved.length 1, ← hrange]
  · intro p hp
    rcases List.mem_append.1 hp with h1 | h2
    · exact hfn p h1
    · simp at h2
      subst h2
      rfl
  · simp [hidx]
  · simp [hfil]

lemma runFrontier_good (env : Env) (m : Nat) :
    ∀ urls st, GoodState st → GoodState (runFrontier env m urls st) := by
  intro urls
  induction urls with
  | nil =>
    intro st h
    simpa [runFrontier] using h
  | cons url rest ih =>
    intro st h
    by_cases hb : m ≤ st.saved.length
    · rw [runFrontier, if_pos hb]
      exact h
    · cases hf : fetchOf env url with
      | none =>
        simp only [runFrontier, if_neg hb, hf]
        exact ih _ h
      | some html =>
        by_cases he : html = ""
        · simp only [runFrontier, if_neg hb, hf, if_pos he]
          exact ih _ h
        · by_cases hcl : is_text_page env (some html) = false
          · simp only [runFrontier, if_neg hb, hf, if_neg he, if_pos hcl]
            exact ih _ h
          · simp only [runFrontier, if_neg hb, hf, if_neg he, if_neg hcl]
            exact ih _ (goodState_accept st url html h)

lemma runFrontier_saved_le_target (env : Env) (m : Nat) :
    ∀ urls st, (runFrontier env m urls st).saved.length ≤ max st.saved.length m := by
  intro urls
  induction urls with
  | nil =>
    intro st
    simp [runFrontier, Nat.le_max_left]
  | cons url rest ih =>
    intro st
    by_cases hb : m ≤ st.saved.length
    · rw [runFrontier, if_pos hb]
      exact Nat.le_max_left _ _
    · have hlt : st.saved.length < m := Nat.lt_of_not_le hb
      cases hf : fetchOf env url with
      | none =>
        simp only [runFrontier, if_neg hb, hf]
        exact ih _
      | some html =>
        by_cases he : html = ""
        · simp only [runFrontier, if_neg hb, hf, if_pos he]
          exact ih _
        · by_cases hcl : is_text_page env (some html) = false
          · simp only [runFrontier, if_neg hb, hf, if_neg he, if_pos hcl]
            exact ih _
          · simp only [runFrontier, if_neg hb, hf, if_neg he, if_neg hcl]
            refine le_trans (ih _) ?_
            have h1 : (st.saved ++ [(st.counter + 1, url, filenameOf (st.counter + 1))]).length ≤ m := by
              simpa using hlt
            simp only [max_le_iff]
            exact ⟨le_trans h1 (Nat.le_max_right _ _), Nat.le_max_right _ _⟩

lemma runFrontier_saved_le_urls (env : Env) (m : Nat) :
    ∀ urls st, (runFrontier env m urls st).saved.length ≤ st.saved.length + urls.length := by
  intro urls
  induction urls with
  | nil =>
    intro st
    simp [runFrontier]
  | cons url rest ih =>
    intro st
    by_cases hb : m ≤ st.saved.length
    · rw [runFrontier, if_pos hb]
      simp
    · cases hf : fetchOf env url with
      | none =>
        simp only [runFrontier, if_neg hb, hf]
        refine le_trans (ih _) ?_
        simp
      | some html =>
        by_cases he : html = ""
        · simp only [runFrontier, if_neg hb, hf, if_pos he]
          refine le_trans (ih _) ?_
          simp
        · by_cases hcl : is_text_page env (some html) = false
          · simp only [runFrontier, if_neg hb, hf, if_neg he, if_pos hcl]
            refine le_trans (ih _) ?_
            simp
          · simp only [runFrontier, if_neg hb, hf, if_neg he, if_neg hcl]
            refine le_trans (ih _) ?_
            simp
            omega

lemma runFrontier_fetched_seg (env : Env) (m : Nat) :
    ∀ urls st, ∃ t rest2,
      (runFrontier env m urls st).fetched = st.fetched ++ t ∧ urls = t ++ rest2 := by
  intro urls
  induction urls with
  | nil =>
    intro st
    exact ⟨[], [], by simp [runFrontier], rfl⟩
  | cons url rest ih =>
    intro st
    by_cases hb : m ≤ st.saved.length
    · exact ⟨[], url :: rest, by rw [runFrontier, if_pos hb]; simp, rfl⟩
    · cases hf : fetchOf env url with
      | none =>
        obtain ⟨t, r2, h1, h2⟩ := ih { st with fetched := st.fetched ++ [url] }
        refine ⟨url :: t, r2, ?_, by simp [h2]⟩
        simp only [runFrontier, if_neg hb, hf]
        simpa using h1
      | some html =>
        by_cases he : html = ""
        · obtain ⟨t, r2, h1, h2⟩ := ih { st with fetched := st.fetched ++ [url] }
          refine ⟨url :: t, r2, ?_, by simp [h2]⟩
          simp only [runFrontier, if_neg hb, hf, if_pos he]
          simpa using h1
        · by_cases hcl : is_text_page env (some html) = false
          · obtain ⟨t, r2, h1, h2⟩ := ih { st with fetched := st.fetched ++ [url] }
            refine ⟨url :: t, r2, ?_, by simp [h2]⟩
            simp only [runFrontier, if_neg hb, hf, if_neg he, if_pos hcl]
            simpa using h1
          · obtain ⟨t, r2, h1, h2⟩ := ih
              { saved := st.saved ++ [(st.counter + 1, url, filenameOf (st.counter + 1))],
                counter := st.counter + 1,
                indexEntries := st.indexEntries ++ [toString (st.counter + 1) ++ "\t" ++ url],
                files := st.files ++ [(filenameOf (st.counter + 1), html)],
                fetched := st.fetched ++ [url] }
            refine ⟨url :: t, r2, ?_, by simp [h2]⟩
            simp only [runFrontier, if_neg hb, hf, if_neg he, if_neg hcl]
            simpa using h1

lemma runFrontier_consumes_all (env : Env) (m : Nat) :
    ∀ urls st, (runFrontier env m urls st).saved.length < m →
      (runFrontier env m urls st).fetched = st.fetched ++ urls := by
  intro urls
  induction urls with
  | nil =>
    intro st _
    simp [runFrontier]
  | cons url rest ih =>
    intro st hlt
    by_cases hb : m ≤ st.saved.length
    · rw [runFrontier, if_pos hb] at hlt
      exact absurd hb (Nat.not_le_of_lt hlt)
    · cases hf : fetchOf env url with
      | none =>
        simp only [runFrontier, if_neg hb, hf] at hlt ⊢
        rw [ih _ hlt]
        simp
      | some html =>
        by_cases he : html = ""
        · simp only [runFrontier, if_neg hb, hf, if_pos he] at hlt ⊢
          rw [ih _ hlt]
          simp
        · by_cases hcl : is_text_page env (some html) = false
          · simp only [runFrontier, if_neg hb, hf, if_neg he, if_pos hcl] at hlt ⊢
            rw [ih _ hlt]
            simp
          · simp only [runFrontier, if_neg hb, hf, if_neg he, if_neg hcl] at hlt ⊢
            rw [ih _ hlt]
            simp

/-! ### Helper lemmas about the pagination walk -/

lemma runPagination_trace_bounds (env : Env) :
    ∀ fuel pageNum acc n, n ∈ (runPagination env pageNum fuel acc).1 →
      pageNum ≤ n ∧ n < pageNum + fuel := by
  intro fuel
  induction fuel with
  | zero =>
    intro pageNum acc n hn
    simp [runPagination] at hn
  | succ fuel ih =>
    intro pageNum acc n hn
    cases hf : fetchOf env (pageUrl pageNum) with
    | none =>
      simp only [runPagination, hf] at hn
      simp at hn
      omega
    | some html =>
      by_cases he : html = ""
      · simp only [runPagination, hf, if_pos he] at hn
        simp at hn
        omega
      · by_cases hl : extract_article_links (env.hrefs html) = (∅ : Finset String)
        · simp only [runPagination, hf, if_neg he, if_pos hl] at hn
          simp at hn
          omega
        · simp only [runPagination, hf, if_neg he, if_neg hl] at hn
          rcases List.mem_cons.1 hn with h1 | h2
          · omega
          · have := ih (pageNum + 1) _ n h2
            omega

lemma runPagination_trace_terminal (env : Env) :
    ∀ fuel pageNum j acc, j < fuel →
      terminalAt env (pageNum + j) = true →
      (∀ i, i < j → terminalAt env (pageNum + i) = false) →
      (runPagination env pageNum fuel acc).1 = List.range' pageNum (j + 1) := by
  intro fuel
  induction fuel with
  | zero =>
    intro pageNum j acc hj
    exact absurd hj (Nat.not_lt_zero j)
  | succ fuel ih =>
    intro pageNum j acc hj hterm hpre
    cases j with
    | zero =>
      rw [Nat.add_zero] at hterm
      cases hf : fetchOf env (pageUrl pageNum) with
      | none =>
        simp only [runPagination, hf]
        simp
      | some html =>
        simp only [terminalAt, hf] at hterm
        by_cases he : html = ""
        · simp only [runPagination, hf, if_pos he]
          simp
        · have hl : extract_article_links (env.hrefs html) = (∅ : Finset String) := by
            simp [he] at hterm
            exact hterm
          simp only [runPagination, hf, if_neg he, if_pos hl]
          simp
    | succ i =>
      have h0 : terminalAt env pageNum = false := by
        have := hpre 0 (Nat.succ_pos i)
        simpa using this
      cases hf : fetchOf env (pageUrl pageNum) with
      | none =>
        simp [terminalAt, hf] at h0
      | some html =>
        simp only [terminalAt, hf] at h0
        have he : html ≠ "" := by
          intro hcon
          simp [hcon] at h0
        have hl : extract_article_links (env.hrefs html) ≠ (∅ : Finset String) := by
          intro hcon
          simp [hcon] at h0
        simp only [runPagination, hf, if_neg he, if_neg hl]
        have hrec := ih (pageNum + 1) i (acc ∪ extract_article_links (env.hrefs html))
          (Nat.lt_of_succ_lt_succ hj)
          (by
            have : pageNum + 1 + i = pageNum + (i + 1) := by omega
            rw [this]
            exact hterm)
          (by
            intro i2 hi2
            have : pageNum + 1 + i2 = pageNum + (i2 + 1) := by omega
            rw [this]
            exact hpre (i2 + 1) (Nat.succ_lt_succ hi2))
        rw [hrec]
        simp [List.range'_succ]

/-! ### Helper lemmas about the link filter -/

lemma keepHref_good (href u : String) (h : keepHref href = some u) : goodUrl u := by
  simp only [keepHref] at h
  split at h
  · simp at h
  · split at h
    · simp at h
    · split at h
      · simp at h
      · split at h
        · simp at h
        · split at h
          · simp at h
          · split at h
            · rename_i hskip hnet hext hrss hroot hnews
              obtain rfl := Option.some.inj h
              refine ⟨not_ne_iff.1 hnet, ?_, ?_, ?_, ?_, hnews⟩
              · intro ext hmem
                have hext2 : (blockedExts.any fun e =>
                    strEndsWith e (strLower (urlparse (urljoin BASE_URL href)).path)) = false := by
                  simpa using hext
                have := List.any_eq_false.1 hext2 ext hmem
                simpa using this
              · simpa using hrss
              · intro hcon
                exact hroot (Or.inl hcon)
              · intro hcon
                exact hroot (Or.inr hcon)
            · simp at h

lemma mem_extract_good (hrefs : List String) (u : String)
    (h : u ∈ extract_article_links hrefs) : goodUrl u := by
  simp only [extract_article_links, List.mem_toFinset, List.mem_filterMap] at h
  obtain ⟨href, _, hk⟩ := h
  exact keepHref_good href u hk

lemma runPagination_acc_good (env : Env) :
    ∀ fuel pageNum acc, (∀ u ∈ acc, goodUrl u) →
      ∀ u ∈ (runPagination env pageNum fuel acc).2, goodUrl u := by
  intro fuel
  induction fuel with
  | zero =>
    intro pageNum acc hacc u hu
    simp only [runPagination] at hu
    exact hacc u hu
  | succ fuel ih =>
    intro pageNum acc hacc u hu
    cases hf : fetchOf env (pageUrl pageNum) with
    | none =>
      simp only [runPagination, hf] at hu
      exact hacc u hu
    | some html =>
      by_cases he : html = ""
      · simp only [runPagination, hf, if_pos he] at hu
        exact hacc u hu
      · by_cases hl : extract_article_links (env.hrefs html) = (∅ : Finset String)
        · simp only [runPagination, hf, if_neg he, if_pos hl] at hu
          exact hacc u hu
        · simp only [runPagination, hf, if_neg he, if_neg hl] at hu
          refine ih (pageNum + 1) _ ?_ u hu
          intro v hv
          rcases Finset.mem_union.1 hv with h1 | h2
          · exact hacc v h1
          · exact mem_extract_good _ v h2

lemma initLinks_good (env : Env) (u : String) (h : u ∈ initLinks env) : goodUrl u := by
  cases hf : fetchOf env NEWS_URL with
  | none =>
    simp only [initLinks, hf] at h
    simp at h
  | some html =>
    by_cases he : html = ""
    · simp only [initLinks, hf, if_pos he] at h
      simp at h
    · simp only [initLinks, hf, if_neg he] at h
      exact mem_extract_good _ u h

lemma collect_good (env : Env) (u : String) (h : u ∈ collectArticleUrls env) : goodUrl u :=
  runPagination_acc_good env MAX_PAGES_TO_TRY 1 (initLinks env) (initLinks_good env) u h

/-! ### Claim theorems -/

/-- C1: in every run of the crawl, the sequence numbers of the accepted
pages are exactly 1, 2, ..., k in order of acceptance (so they form the set
of integers from 1 to k where k is the number of acceptances, dense, with
no gaps and no reuse), the counter equals the number of acceptances (it is
incremented exactly once per acceptance and never otherwise), and every
saved page's filename is `page_` followed by the zero-padded four-digit
sequence number and `.txt`. -/
theorem C1_sequence_numbers_dense (env : Env) (order : List String) :
    ((crawl env order).finalState.saved.map fun p => p.1) =
      List.range' 1 (crawl env order).finalState.saved.length ∧
    (crawl env order).finalState.counter = (crawl env order).finalState.saved.length ∧
    ∀ p ∈ (crawl env order).finalState.saved, p.2.2 = filenameOf p.1 := by
  obtain ⟨hc, hseq, hfn, _, _⟩ :=
    runFrontier_good env MIN_PAGES order initFrontier goodState_init
  exact ⟨hseq, hc, hfn⟩

/-- C3: at the end of every run, the index file consists of the column
label line and the separator line followed by exactly one record per page
file persisted during the run (so its line count minus the two header lines
equals the number of page files), and the records appear in strictly
ascending sequence order. -/
theorem C3_index_matches_files (env : Env) (order : List String) :
    (crawl env order).indexLines =
      headerLine1 :: headerLine2 :: (crawl env order).finalState.indexEntries ∧
    (crawl env order).indexLines.length = (crawl env order).finalState.files.length + 2 ∧
    (crawl env order).finalState.indexEntries.length =
      (crawl env order).finalState.files.length ∧
    (crawl env order).finalState.indexEntries =
      (crawl env order).finalState.saved.map (fun p => toString p.1 ++ "\t" ++ p.2.1) ∧
    ((crawl env order).finalState.saved.map fun p => p.1).Pairwise (· < ·) := by
  obtain ⟨hc, hseq, hfn, hidx, hfil⟩ :=
    runFrontier_good env MIN_PAGES order initFrontier goodState_init
  have hflen : (runFrontier env MIN_PAGES order initFrontier).files.length =
      (runFrontier env MIN_PAGES order initFrontier).saved.length := by
    have := congrArg List.length hfil
    simpa using this
  have hilen : (runFrontier env MIN_PAGES order initFrontier).indexEntries.length =
      (runFrontier env MIN_PAGES order initFrontier).saved.length := by
    rw [hidx]
    simp
  refine ⟨rfl, ?_, ?_, ?_, ?_⟩
  · simp only [crawl, indexFileLines]
    simp [hilen, hflen]
  · simp only [crawl]
    rw [hilen, hflen]
  · simp only [crawl]
    exact hidx
  · simp only [crawl]
    rw [hseq]
    exact List.pairwise_lt_range' 1 _

/-- C9: the link extractor is deterministic (two applications to the same
HTML give the same value) and idempotent as a set producer: accumulating
its result twice adds nothing over accumulating it once. -/
theorem C9_extractor_idempotent (hrefs : List String) :
    extract_article_links hrefs = extract_article_links hrefs ∧
    extract_article_links hrefs ∪ extract_article_links hrefs = extract_article_links hrefs :=
  ⟨rfl, Finset.union_self _⟩

/-- C10: the classifier is total on degenerate input: for `None` and for
the empty string it returns false, for any behaviour of the parser oracle
(so no parse is attempted and no exception can be raised). -/
theorem C10_classifier_total_on_degenerate (env : Env) :
    is_text_page env none = false ∧ is_text_page env (some "") = false := by
  constructor
  · rfl
  · simp [is_text_page]

/-- C6: the frontier loop never accepts more than the minimum target and
never more than the candidate set holds; when it ends below the target the
whole candidate set was consumed (so it terminates exactly on reaching the
target or on exhaustion); the value `crawl` returns is the count of pages
actually saved; and on a candidate set of 5 URLs with target 10 where every
fetch succeeds and every page classifies as text, exactly 5 pages are
accepted and the index holds 5 records. -/
theorem C6_frontier_termination :
    (∀ env : Env, ∀ minPages : Nat, ∀ urls : List String,
      (runFrontier env minPages urls initFrontier).saved.length ≤ minPages) ∧
    (∀ env : Env, ∀ minPages : Nat, ∀ urls : List String,
      (runFrontier env minPages urls initFrontier).saved.length ≤ urls.length) ∧
    (∀ env : Env, ∀ minPages : Nat, ∀ urls : List String,
      (runFrontier env minPages urls initFrontier).saved.length < minPages →
        (runFrontier env minPages urls initFrontier).fetched = urls) ∧
    (∀ env : Env, ∀ order : List String,
      (crawl env order).returnValue = (crawl env order).finalState.saved.length) ∧
    (runFrontier envAccept 10 urls5 initFrontier).saved.length = 5 ∧
    (runFrontier envAccept 10 urls5 initFrontier).indexEntries.length = 5 := by
  refine ⟨?_, ?_, ?_, ?_, ?_, ?_⟩
  · intro env m urls
    have := runFrontier_saved_le_target env m urls initFrontier
    simpa [initFrontier] using this
  · intro env m urls
    have := runFrontier_saved_le_urls env m urls initFrontier
    simpa [initFrontier] using this
  · intro env m urls h
    have := runFrontier_consumes_all env m urls initFrontier h
    simpa [initFrontier] using this
  · intro env order
    rfl
  · decide
  · decide

/-- C7: within a run the candidate set holds no duplicates, and the
frontier loop fetches each candidate at most once: the fetch trace has no
duplicates, it is an initial segment of the iteration order (every URL is
consumed once and dropped from further consideration whatever its outcome,
with no retries), and when the loop does not stop early at the target the
trace is the whole candidate list. -/
theorem C7_no_refetch (env : Env) (minPages : Nat) (order : List String)
    (h : order.Nodup) :
    (runFrontier env minPages order initFrontier).fetched.Nodup ∧
    (∃ t, order = (runFrontier env minPages order initFrontier).fetched ++ t) ∧
    ((runFrontier env minPages order initFrontier).saved.length < minPages →
      (runFrontier env minPages order initFrontier).fetched = order) ∧
    ∀ env2 : Env, (collectArticleUrls env2).val.Nodup := by
  obtain ⟨t, r2, h1, h2⟩ := runFrontier_fetched_seg env minPages order initFrontier
  have hft : (runFrontier env minPages order initFrontier).fetched = t := by
    simpa [initFrontier] using h1
  refine ⟨?_, ?_, ?_, ?_⟩
  · rw [hft]
    have hsub : t.Sublist order := by
      rw [h2]
      exact List.sublist_append_left t r2
    exact h.sublist hsub
  · refine ⟨r2, ?_⟩
    rw [hft]
    exact h2
  · intro hlt
    have := runFrontier_consumes_all env minPages order initFrontier hlt
    simpa [initFrontier] using this
  · intro env2
    exact (collectArticleUrls env2).nodup

/-- C7 witness: on the concrete candidate list `x, y` with an environment
in which every fetch fails, the trace is duplicate-free and equals the
whole list. -/
theorem C7_witness :
    (["x", "y"] : List String).Nodup ∧
    (runFrontier envId MIN_PAGES ["x", "y"] initFrontier).fetched.Nodup ∧
    (runFrontier envId MIN_PAGES ["x", "y"] initFrontier).fetched = ["x", "y"] := by
  have h := C7_no_refetch envId MIN_PAGES ["x", "y"] (by decide)
  exact ⟨by decide, h.1, h.2.2.1 (by decide)⟩

/-- C8 counterexample: the code turns only 4xx and 5xx statuses into the
unavailable outcome, so a 304 response, although not a 2xx status, is
returned as a successful body, contradicting the claim that every non-2xx
status is reported unavailable. -/
theorem C8_counterexample :
    fetch_page (HttpOutcome.response 304 "cached") = some "cached" ∧
    ¬(200 ≤ 304 ∧ 304 < 300) := by
  constructor
  · rfl
  · decide

/-- C8 amended: a fetch that encounters a network error, a timeout, or a
status in the 4xx or 5xx range returns the single unavailable outcome
`none` rather than raising a fatal error, and a response with any other
status returns the body text; the fetcher consumes exactly one transport
outcome, so it performs no retry. -/
theorem C8_fetch_failure_outcomes (status : Nat) (body : String) :
    fetch_page HttpOutcome.networkError = none ∧
    fetch_page HttpOutcome.timeout = none ∧
    (400 ≤ status ∧ status < 600 → fetch_page (HttpOutcome.response status body) = none) ∧
    (status < 400 ∨ 600 ≤ status → fetch_page (HttpOutcome.response status body) = some body) := by
  refine ⟨rfl, rfl, ?_, ?_⟩
  · intro hst
    have ht : hasHttpError status = true := by
      simp only [hasHttpError, Bool.and_eq_true, decide_eq_true_eq]
      omega
    simp [fetch_page, ht]
  · intro hst
    have ht : hasHttpError status = false := by
      simp only [hasHttpError, Bool.and_eq_false_iff, decide_eq_false_iff_not]
      omega
    simp [fetch_page, ht]

/-- C8 witness: a 500 response is unavailable and a 200 response returns
its body. -/
theorem C8_witness :
    fetch_page (HttpOutcome.response 500 "err") = none ∧
    fetch_page (HttpOutcome.response 200 "ok") = some "ok" :=
  ⟨(C8_fetch_failure_outcomes 500 "err").2.2.1 (by decide),
   (C8_fetch_failure_outcomes 200 "ok").2.2.2 (Or.inl (by decide))⟩

/-- C2 counterexample: an absolute `http` link to the base host passes the
extractor (the code compares only the network location, not the scheme),
so an extracted URL need not have the same scheme as the configured base,
refuting the claim that same-origin means identical scheme and host. -/
theorem C2_counterexample :
    "http://media.kpfu.ru/news/item1" ∈
      extract_article_links ["http://media.kpfu.ru/news/item1"] ∧
    (urlparse "http://media.kpfu.ru/news/item1").scheme ≠ (urlparse BASE_URL).scheme := by
  constructor
  · decide
  · decide

/-- C2 amended: every URL returned by the link extractor, and every URL
ever placed in the candidate set, has the same network location (host) as
the configured base (the scheme is not compared), its lower-cased path ends
in no blocklisted extension, contains no rss substring, is not the bare
listing root with or without trailing slash, and contains the
article-namespace segment. -/
theorem C2_candidate_urls_in_scope (env : Env) (hrefs : List String) (u v : String)
    (hu : u ∈ extract_article_links hrefs) (hv : v ∈ collectArticleUrls env) :
    goodUrl u ∧ goodUrl v :=
  ⟨mem_extract_good hrefs u hu, collect_good env v hv⟩

/-- C2 witness: a concrete extracted URL and a concrete candidate-set URL
both satisfy all the scope properties. -/
theorem C2_witness :
    ("https://media.kpfu.ru/news/a" ∈ extract_article_links ["/news/a"]) ∧
    ("https://media.kpfu.ru/news/item1" ∈ collectArticleUrls envListing) ∧
    goodUrl "https://media.kpfu.ru/news/a" ∧
    goodUrl "https://media.kpfu.ru/news/item1" := by
  have h := C2_candidate_urls_in_scope envListing ["/news/a"]
    "https://media.kpfu.ru/news/a" "https://media.kpfu.ru/news/item1"
    (by decide) (by decide)
  exact ⟨by decide, by decide, h.1, h.2⟩

/-- C4: whenever the stripped visible text of a non-empty document is
shorter than 100 characters the classifier returns false, and for text of
at least 100 characters it returns true exactly when the text contains a
Cyrillic character or a run of three consecutive Latin letters (the
hypothesis states that the parser extracts no text from an empty
document). -/
theorem C4_classifier_behaviour (env : Env) (hp : env.text "" = "") (h : String) :
    ((env.text h).length < 100 → is_text_page env (some h) = false) ∧
    (100 ≤ (env.text h).length →
      is_text_page env (some h) = (hasCyrillic (env.text h) || hasLatinRun3 (env.text h))) := by
  by_cases hne : h = ""
  · subst hne
    constructor
    · intro _
      simp [is_text_page]
    · intro hlen
      rw [hp] at hlen
      simp at hlen
  · constructor
    · intro hlen
      simp only [is_text_page, if_neg hne]
      rw [if_pos hlen]
    · intro hlen
      have hnl : ¬((env.text h).length < 100) := by omega
      simp only [is_text_page, if_neg hne, if_neg hnl]
      by_cases hcyr : hasCyrillic (env.text h)
      · simp [hcyr]
      · by_cases hrun : hasLatinRun3 (env.text h)
        · simp [hcyr, hrun]
        · simp [hcyr, hrun]

/-- C4 witness: a 102-character text of two-letter tokens with no Cyrillic
is rejected, and a 102-character text containing the run `abc` is
accepted. -/
theorem C4_witness :
    is_text_page envId (some sNoRun) = false ∧
    is_text_page envId (some sWithRun) = true := by
  constructor
  · have h := (C4_classifier_behaviour envId rfl sNoRun).2 (by decide)
    rw [h]
    decide
  · have h := (C4_classifier_behaviour envId rfl sWithRun).2 (by decide)
    rw [h]
    decide

/-- C5: if listing page n (at most the bound 30) is the first page whose
fetch fails or yields zero extracted links, the pagination walk fetches
exactly pages 1 through n, in particular it never fetches page n + 1, and
in any run at all no fetched page number exceeds the bound 30. -/
theorem C5_pagination_stops (env : Env) (n : Nat) (h1 : 1 ≤ n)
    (h2 : n ≤ MAX_PAGES_TO_TRY) (hterm : terminalAt env n = true)
    (hpre : ∀ m, 1 ≤ m → m < n → terminalAt env m = false) :
    fetchedPages env = List.range' 1 n ∧
    n + 1 ∉ fetchedPages env ∧
    ∀ env2 : Env, ∀ m ∈ fetchedPages env2, m ≤ MAX_PAGES_TO_TRY := by
  have hj : n - 1 < MAX_PAGES_TO_TRY := by
    simp only [MAX_PAGES_TO_TRY] at h2 ⊢
    omega
  have hn1 : 1 + (n - 1) = n := by omega
  have htr := runPagination_trace_terminal env MAX_PAGES_TO_TRY 1 (n - 1) (initLinks env) hj
    (by rw [hn1]; exact hterm)
    (by
      intro i hi
      refine hpre (1 + i) (by omega) (by omega))
  have hn2 : n - 1 + 1 = n := by omega
  rw [hn2] at htr
  have htrace : fetchedPages env = List.range' 1 n := htr
  refine ⟨htrace, ?_, ?_⟩
  · rw [htrace]
    intro hmem
    have := List.mem_range'_1.1 hmem
    omega
  · intro env2 m hm
    have := runPagination_trace_bounds env2 MAX_PAGES_TO_TRY 1 (initLinks env2) m hm
    simp only [MAX_PAGES_TO_TRY] at this ⊢
    omega

/-- C5 witness: in an environment whose page 3 yields no extractable links
while pages 1 and 2 do, the walk fetches exactly pages 1, 2, 3 and never
page 4. -/
theorem C5_witness :
    fetchedPages envPg = [1, 2, 3] ∧ 4 ∉ fetchedPages envPg := by
  have h := C5_pagination_stops envPg 3 (by decide) (by decide) (by decide)
    (by
      intro m hm1 hm2
      interval_cases m
      · decide
      · decide)
  refine ⟨?_, h.2.1⟩
  rw [h.1]
  decide
